import Mathlib

/-!
A shallow embedding of the domain core of the ToDo REST API
(`src/domain/entities/todo.py`, `src/usecases/todo_service.py`,
`src/domain/repositories/todo_repository.py`,
`src/infra/db/todo_repository_impl.py`), with theorems checking the
specification's statements about it.

Modelling conventions: Python strings become lists of characters
(`Str`); `str.strip`/`str.lower` are modelled over the ASCII range (the
same range over which SQLite's `LIKE` folds case); `datetime` values
become natural numbers and every call of `datetime.utcnow()` in the
source becomes an explicit `now` parameter; a raised `ValueError`
becomes the `Except String` error case carrying the exact message.
-/

deriving instance DecidableEq for Except

/-- Python strings, modelled as lists of characters. -/
abbrev Str := List Char

/-- Whitespace removed by Python's `str.strip()` (ASCII range). -/
def isPySpace (c : Char) : Bool :=
  c = ' ' || c = '\t' || c = '\n' || c = '\r' || c = '\x0b' || c = '\x0c'

/-- `str.strip()`: drop leading and trailing whitespace. -/
def pyStrip (s : Str) : Str :=
  ((s.dropWhile isPySpace).reverse.dropWhile isPySpace).reverse

/-- `str.lower()` on a single character (ASCII range): the uppercase
letters `A`-`Z` (codepoints 65-90) map to `a`-`z` (97-122). -/
def charLower (c : Char) : Char :=
  if 65 ≤ c.toNat ∧ c.toNat ≤ 90 then Char.ofNat (c.toNat + 32) else c

/-- `str.lower()`. -/
def pyLower (s : Str) : Str := s.map charLower

/-- The `Todo` dataclass (`todo.py` lines 7-21). -/
structure Todo where
  id : Option Int
  title : Str
  description : Option Str
  is_done : Bool
  priority : Int
  due_date : Option Nat
  tags : List Str
  created_at : Option Nat
  updated_at : Option Nat
  deriving DecidableEq, Repr

/-- The tag-normalisation loop of `Todo._validate_and_normalize`
(`todo.py` lines 47-55); `acc` is the accumulated `normalized_tags`. -/
def normTags : List Str → List Str → Except String (List Str)
  | acc, [] => .ok acc
  | acc, tag :: rest =>
    -- `if not tag or not tag.strip(): continue` — an empty tag also strips to []
    if pyStrip tag = [] then normTags acc rest
    else
      let n := pyLower (pyStrip tag)
      if 30 < n.length then .error "tag must be 30 characters or less"
      else if n ∈ acc then normTags acc rest
      else normTags (acc ++ [n]) rest

/-- The whole tags stage of validation: the `if self.tags:` guard around
the normalisation loop plus the final `len(self.tags) > 20` check
(`todo.py` lines 45-61). -/
def tagsStage (tags : List Str) : Except String (List Str) :=
  match (if tags = [] then .ok [] else normTags [] tags) with
  | .error e => .error e
  | .ok out => if 20 < out.length then .error "maximum 20 tags allowed" else .ok out

/-- `if self.description and len(self.description) > 2000` (`todo.py`
line 38); an absent or empty (falsy) description passes. -/
def descBad : Option Str → Bool
  | none => false
  | some d => !d.isEmpty && decide (2000 < d.length)

/-- The due-date rule (`todo.py` lines 63-68): it fires only when the
todo has a due_date, a created_at and an id, and the due_date is
strictly earlier. -/
def dueBad (id : Option Int) (created_at due_date : Option Nat) : Bool :=
  match due_date, created_at, id with
  | some d, some c, some _ => decide (d < c)
  | _, _, _ => false

/-- `Todo._validate_and_normalize` (`todo.py` lines 27-68) as a function
from the raw record to the validated, normalised record. Every
construction of a `Todo` in the source runs it (`__post_init__`), so a
runtime `Todo` is always a fixed point of it. -/
def Todo.make (t : Todo) : Except String Todo :=
  if pyStrip t.title = [] then .error "title is required and cannot be empty"
  else if 200 < (pyStrip t.title).length then .error "title must be 200 characters or less"
  else if descBad t.description then .error "description must be 2000 characters or less"
  else if t.priority < 0 ∨ 5 < t.priority then .error "priority must be an integer between 0 and 5"
  else
    match tagsStage t.tags with
    | .error e => .error e
    | .ok tags' =>
      if dueBad t.id t.created_at t.due_date then .error "due_date cannot be before created_at"
      else .ok { t with title := pyStrip t.title, tags := tags' }

/-- A well-formed todo: validation is the identity on it. These are
exactly the todos that can exist at runtime. -/
def Todo.wf (t : Todo) : Prop := Todo.make t = .ok t

instance (t : Todo) : Decidable t.wf := by
  unfold Todo.wf
  infer_instance

/-- The keyword arguments accepted by `Todo.update` (`todo.py` lines
70-85); `none` means the keyword was not supplied. A supplied keyword
may itself carry Python `None` for the nullable fields, hence the
nested `Option`. `created_at` can be supplied but is never read. -/
structure UpdateArgs where
  title : Option Str
  description : Option (Option Str)
  is_done : Option Bool
  priority : Option Int
  due_date : Option (Option Nat)
  tags : Option (List Str)
  created_at : Option (Option Nat)
  updated_at : Option (Option Nat)
  deriving DecidableEq, Repr

/-- No keyword arguments supplied. -/
def noArgs : UpdateArgs := ⟨none, none, none, none, none, none, none, none⟩

/-- `Todo.update` (`todo.py` lines 70-85): overlay the supplied keywords
on the current values and re-validate; `now` is the `datetime.utcnow()`
default of the `updated_at` keyword. The record passed to the
constructor takes `id` and `created_at` from `self`, so a supplied
`created_at` keyword is dropped. -/
def Todo.update (t : Todo) (a : UpdateArgs) (now : Nat) : Except String Todo :=
  Todo.make
    { id := t.id
      title := a.title.getD t.title
      description := a.description.getD t.description
      is_done := a.is_done.getD t.is_done
      priority := a.priority.getD t.priority
      due_date := a.due_date.getD t.due_date
      tags := a.tags.getD t.tags
      created_at := t.created_at
      updated_at := a.updated_at.getD (some now) }

/-- `Todo.create` (`todo.py` lines 115-136). -/
def Todo.create (title : Str) (description : Option Str) (priority : Int)
    (due_date : Option Nat) (tags : Option (List Str)) (now : Nat) :
    Except String Todo :=
  Todo.make
    { id := none
      title := title
      description := description
      is_done := false
      priority := priority
      due_date := due_date
      tags := tags.getD []   -- `tags or []`
      created_at := some now
      updated_at := some now }

/-- `Todo.mark_as_done` (`todo.py` lines 87-89). -/
def Todo.mark_as_done (t : Todo) (now : Nat) : Except String Todo :=
  t.update { noArgs with is_done := some true, updated_at := some (some now) } now

/-- `Todo.mark_as_undone` (`todo.py` lines 91-93). -/
def Todo.mark_as_undone (t : Todo) (now : Nat) : Except String Todo :=
  t.update { noArgs with is_done := some false, updated_at := some (some now) } now

/-- `Todo.add_tag` (`todo.py` lines 95-103). -/
def Todo.add_tag (t : Todo) (tag : Str) (now : Nat) : Except String Todo :=
  let n := pyLower (pyStrip tag)
  let new_tags := if n ≠ [] ∧ n ∉ t.tags then t.tags ++ [n] else t.tags
  t.update { noArgs with tags := some new_tags, updated_at := some (some now) } now

/-- `Todo.remove_tag` (`todo.py` lines 105-113); Python `list.remove`
drops the first occurrence. -/
def Todo.remove_tag (t : Todo) (tag : Str) (now : Nat) : Except String Todo :=
  let n := pyLower (pyStrip tag)
  let new_tags := if n ∈ t.tags then t.tags.erase n else t.tags
  t.update { noArgs with tags := some new_tags, updated_at := some (some now) } now

/-! ## Repository and service layer

The SQL table of `src/infra/db/todo_repository_impl.py` is modelled as
the list of its rows (each row holding the fields of a `Todo`); the
service methods (`src/usecases/todo_service.py`) thread that state
explicitly. Each `datetime.utcnow()` read is a separate parameter. -/

/-- The repository rows. -/
abbrev RepoSt := List Todo

/-- `SqlAlchemyTodoRepository.get_by_id` (impl lines 43-53). -/
def repoGetById (s : RepoSt) (i : Int) : Option Todo :=
  s.find? (fun t => t.id == some i)

/-- `SqlAlchemyTodoRepository.update` (impl lines 55-78): require an id,
look the row up, raise when absent, restamp `updated_at` with the
current time through `todo.update`, store the result. -/
def repoUpdate (s : RepoSt) (todo : Todo) (now : Nat) :
    Except String (Todo × RepoSt) :=
  match todo.id with
  | none => .error "Todo ID is required for update"
  | some i =>
    match repoGetById s i with
    | none => .error "Todo not found"
    | some _ =>
      match todo.update { noArgs with updated_at := some (some now) } now with
      | .error e => .error e
      | .ok u => .ok (u, s.map (fun r => if r.id == some i then u else r))

/-- The entity-side timestamp restamp performed by
`SqlAlchemyTodoRepository.create` (impl lines 28-30):
`todo.update(created_at=now, updated_at=now)`. -/
def repoCreateStamp (todo : Todo) (now : Nat) : Except String Todo :=
  todo.update { noArgs with created_at := some (some now),
                            updated_at := some (some now) } now

/-- `TodoService.mark_todo_as_done` (`todo_service.py` lines 128-142);
`now₁` is the clock read inside `Todo.mark_as_done`, `now₂` the one
inside the repository update. -/
def markTodoAsDone (s : RepoSt) (i : Int) (now₁ now₂ : Nat) :
    Except String (Option Todo × RepoSt) :=
  match repoGetById s i with
  | none => .ok (none, s)
  | some t =>
    match t.mark_as_done now₁ with
    | .error e => .error e
    | .ok t' =>
      match repoUpdate s t' now₂ with
      | .error e => .error e
      | .ok (u, s') => .ok (some u, s')

/-- `TodoService.update_todo` (`todo_service.py` lines 64-115): fetch
the existing todo (absence short-circuits to `None`), build
`update_data` from exactly the parameters that were supplied, apply the
entity update, persist through the repository. -/
def updateTodo (s : RepoSt) (i : Int) (title : Option Str)
    (description : Option Str) (is_done : Option Bool)
    (priority : Option Int) (due_date : Option Nat)
    (tags : Option (List Str)) (now₁ now₂ : Nat) :
    Except String (Option Todo × RepoSt) :=
  match repoGetById s i with
  | none => .ok (none, s)
  | some ex =>
    let args : UpdateArgs :=
      { title := title, description := description.map some,
        is_done := is_done, priority := priority,
        due_date := due_date.map some, tags := tags,
        created_at := none, updated_at := none }
    match ex.update args now₁ with
    | .error e => .error e
    | .ok u =>
      match repoUpdate s u now₂ with
      | .error e => .error e
      | .ok (r, s') => .ok (some r, s')

/-- How `bulk_mark_as_done` classifies one attempt: absence (`None`) and
a raised exception both count as failure, a returned todo as success. -/
def bulkFailed (r : Except ε (Option Todo)) : Bool :=
  match r with
  | .ok (some _) => false
  | .ok none => true
  | .error _ => true

/-- The loop of `TodoService.bulk_mark_as_done` (`todo_service.py` lines
245-253), parameterised by the per-id operation (the source calls
`self.mark_todo_as_done`, which runs against the repository and may
raise); `upd` and `failed` are `updated_count` and `failed_ids`. -/
def bulkLoop (mark : σ → Int → Except ε (Option Todo) × σ) :
    σ → Nat → List Int → List Int → (Nat × List Int) × σ
  | s, upd, failed, [] => ((upd, failed), s)
  | s, upd, failed, i :: rest =>
    match mark s i with
    | (r, s') =>
      if bulkFailed r then bulkLoop mark s' upd (failed ++ [i]) rest
      else bulkLoop mark s' (upd + 1) failed rest

/-- `TodoService.bulk_mark_as_done` (`todo_service.py` lines 233-258). -/
def bulkMarkAsDone (mark : σ → Int → Except ε (Option Todo) × σ)
    (s : σ) (ids : List Int) : (Nat × List Int) × σ :=
  bulkLoop mark s 0 [] ids

/-- The per-id outcomes along a run of the bulk loop, in input order:
`(id, whether the attempt on it failed)`. -/
def bulkTrace (mark : σ → Int → Except ε (Option Todo) × σ) :
    σ → List Int → List (Int × Bool)
  | _, [] => []
  | s, i :: rest =>
    match mark s i with
    | (r, s') => (i, bulkFailed r) :: bulkTrace mark s' rest

/-! ## Search parameters and query execution -/

/-- A sort direction. -/
inductive SortDir
  | asc
  | desc
  deriving DecidableEq, Repr

/-- `TodoSearchParams` (`todo_repository.py` lines 8-29). -/
structure SearchParams where
  page : Int
  page_size : Int
  sort : Option Str
  is_done : Option Bool
  q : Option Str
  tags : List Str
  due_before : Option Nat
  due_after : Option Nat
  deriving DecidableEq, Repr

/-- The `TodoSearchParams.__init__` normalisation (`todo_repository.py`
lines 22-29): clamp `page` to at least 1 and `page_size` to `[1, 100]`,
replace an absent tags list by `[]`. -/
def mkSearchParams (page page_size : Int) (sort : Option Str)
    (is_done : Option Bool) (q : Option Str) (tags : Option (List Str))
    (due_before due_after : Option Nat) : SearchParams :=
  { page := max 1 page, page_size := min (max 1 page_size) 100,
    sort := sort, is_done := is_done, q := q, tags := tags.getD [],
    due_before := due_before, due_after := due_after }

/-- Python `str.split(sep)` for a one-character separator: `""` splits
to `[""]`, separators at the ends produce empty pieces. -/
def pySplit (sep : Char) : List Char → List Str
  | [] => [[]]
  | c :: rest =>
    match pySplit sep rest with
    | [] => [[]]
    | s :: ss => if c = sep then [] :: s :: ss else (c :: s) :: ss

/-- The body of the `for field in self.sort.split(",")` loop in
`TodoSearchParams.get_sort_fields` (`todo_repository.py` lines 46-53):
strip the piece, a leading `-` selects descending on the rest. -/
def sortLoop : List Str → List (Str × SortDir)
  | [] => []
  | f :: rest =>
    let g := pyStrip f
    (if g.head? = some '-' then (g.drop 1, SortDir.desc)
     else (g, SortDir.asc)) :: sortLoop rest

/-- `TodoSearchParams.get_sort_fields` (`todo_repository.py` lines
36-54); `if not self.sort:` catches both an absent and an empty sort
string. -/
def getSortFields (sort : Option Str) : List (Str × SortDir) :=
  match sort with
  | none => [("created_at".toList, SortDir.desc)]
  | some s =>
    if s = [] then [("created_at".toList, SortDir.desc)]
    else sortLoop (pySplit ',' s)

/-- The names `hasattr(TodoModel, ·)` accepts (`src/infra/db/models.py`):
the mapped columns plus the class-level attributes of `TodoModel`. -/
def todoModelAttrs : List Str :=
  ["id".toList, "title".toList, "description".toList, "is_done".toList,
   "priority".toList, "due_date".toList, "tags".toList,
   "created_at".toList, "updated_at".toList, "to_entity".toList,
   "from_entity".toList, "update_from_entity".toList,
   "metadata".toList, "registry".toList]

/-- `hasattr(TodoModel, name)`. -/
def todoModelHasAttr (name : Str) : Bool := name ∈ todoModelAttrs

/-- The `order_by` accumulation of `SqlAlchemyTodoRepository.search`
(impl lines 153-161): a parsed sort key is applied only when `hasattr`
holds of its field name; any other key is skipped without an error. -/
def applyOrderBy : List (Str × SortDir) → List (Str × SortDir)
  | [] => []
  | k :: rest =>
    if todoModelHasAttr k.1 then k :: applyOrderBy rest else applyOrderBy rest

/-- The `ORDER BY` keys a search executes, from the raw sort string. -/
def searchOrderKeys (p : SearchParams) : List (Str × SortDir) :=
  applyOrderBy (getSortFields p.sort)

/-- SQLite `LIKE`: `%` matches any run (any suffix of the text may
continue the match), `_` matches any single character, and any other
pattern character matches up to ASCII case folding. -/
def likeMatch : List Char → List Char → Bool
  | [], t => t.isEmpty
  | p :: ps, t =>
    if p = '%' then t.tails.any (fun u => likeMatch ps u)
    else if p = '_' then
      match t with
      | [] => false
      | _ :: ts => likeMatch ps ts
    else
      match t with
      | [] => false
      | c :: ts => (charLower p == charLower c) && likeMatch ps ts

/-- SQLite's JSON rendering of one string character: escape the quote,
the backslash, and control characters. -/
def jsonEscapeChar (c : Char) : List Char :=
  if c = '"' then ['\\', '"']
  else if c = '\\' then ['\\', '\\']
  else if c.toNat < 32 then
    ['\\', 'u', '0', '0', Nat.digitChar (c.toNat / 16), Nat.digitChar (c.toNat % 16)]
  else [c]

/-- SQLite's JSON rendering of a string body. -/
def jsonEscape (s : Str) : List Char := s.flatMap jsonEscapeChar

/-- The comma-separated body of the JSON rendering of the tags array:
each element double-quoted with its content escaped. -/
def renderBody : List Str → List Char
  | [] => []
  | [t] => '"' :: jsonEscape t ++ ['"']
  | t :: rest => '"' :: jsonEscape t ++ ['"', ','] ++ renderBody rest

/-- The text `json_extract(tags, '$')` evaluates to: the stored tags
list as minified JSON. -/
def renderTags (tags : List Str) : List Char :=
  '[' :: renderBody tags ++ [']']

/-- The tag LIKE pattern built at impl line 133: `'%"{tag.lower()}"%'`. -/
def tagLikePattern (tag : Str) : List Char :=
  '%' :: '"' :: pyLower tag ++ ['"', '%']

/-- The `is_done` filter condition (impl lines 112-114). -/
def condIsDone (p : SearchParams) (t : Todo) : Bool :=
  match p.is_done with
  | none => true
  | some b => t.is_done == b

/-- The free-text filter condition (impl lines 116-124): an absent or
empty (falsy) `q` imposes nothing; otherwise a case-insensitive
substring match on the title or the (non-null) description. -/
def condQ (p : SearchParams) (t : Todo) : Bool :=
  match p.q with
  | none => true
  | some q =>
    q.isEmpty ||
      (likeMatch ('%' :: q ++ ['%']) t.title ||
       match t.description with
       | some d => likeMatch ('%' :: q ++ ['%']) d
       | none => false)

/-- The tag filter condition (impl lines 126-135): one LIKE pattern per
requested tag over the JSON rendering of the stored tags, conjoined. -/
def condTags (p : SearchParams) (t : Todo) : Bool :=
  p.tags.isEmpty ||
    p.tags.all (fun tag => likeMatch (tagLikePattern tag) (renderTags t.tags))

/-- The `due_before` condition (impl lines 138-139): `due_date <=`,
null due dates never match. -/
def condBefore (p : SearchParams) (t : Todo) : Bool :=
  match p.due_before with
  | none => true
  | some b =>
    match t.due_date with
    | some d => decide (d ≤ b)
    | none => false

/-- The `due_after` condition (impl lines 141-142): `due_date >=`. -/
def condAfter (p : SearchParams) (t : Todo) : Bool :=
  match p.due_after with
  | none => true
  | some a =>
    match t.due_date with
    | some d => decide (a ≤ d)
    | none => false

/-- The filter conditions of `SqlAlchemyTodoRepository.search` (impl
lines 109-147), evaluated on one row; the groups are conjoined exactly
when present, mirroring `and_(*conditions)`. -/
def rowMatches (p : SearchParams) (t : Todo) : Bool :=
  condIsDone p t && condQ p t && condTags p t && condBefore p t &&
    condAfter p t

/-- The pre-pagination filtered set of a search, whose size is
`total_items` (impl lines 144-151). -/
def searchFiltered (p : SearchParams) (rows : RepoSt) : RepoSt :=
  rows.filter (rowMatches p)

/-- A concrete persisted todo used to instantiate theorems. -/
def todoA : Todo :=
  ⟨some 1, "a".toList, none, false, 0, none, [], some 0, some 0⟩

/-- A concrete persisted todo carrying one tag. -/
def todoW : Todo :=
  ⟨some 1, "buy milk".toList, none, false, 1, none, ["work".toList],
    some 0, some 0⟩

/-- The input tags that survive the skip-if-empty step, each in its
normalised (trimmed, lower-cased) form, in input order. -/
def survivors (l : List Str) : List Str :=
  (l.filter (fun t => !(pyStrip t).isEmpty)).map (fun t => pyLower (pyStrip t))

/-- First-occurrence deduplication, as a fold. -/
def foldDedup (acc : List Str) (s : List Str) : List Str :=
  s.foldl (fun a x => if x ∈ a then a else a ++ [x]) acc

/-- The index of the first occurrence of `x` (the list's length when
absent); used to state "first-occurrence order". -/
def idxOf (x : Str) : List Str → Nat
  | [] => 0
  | y :: ys => if y = x then 0 else idxOf x ys + 1

/-- The number of occurrences of a string in a list of strings. -/
def countStr (x : Str) : List Str → Nat
  | [] => 0
  | y :: ys => (if y = x then 1 else 0) + countStr x ys

/-- A character that JSON rendering leaves alone: not the quote, not
the backslash, not a control character. -/
def jsonPlainChar (c : Char) : Prop :=
  c ≠ '"' ∧ c ≠ '\\' ∧ 32 ≤ c.toNat

instance (c : Char) : Decidable (jsonPlainChar c) := by
  unfold jsonPlainChar
  infer_instance

/-- A character that is also inert in a LIKE pattern. -/
def likePlainChar (c : Char) : Prop :=
  jsonPlainChar c ∧ c ≠ '%' ∧ c ≠ '_'

instance (c : Char) : Decidable (likePlainChar c) := by
  unfold likePlainChar
  infer_instance

/-! ## Facts about the character model -/

lemma charToNat_inj {c d : Char} (h : c.toNat = d.toNat) : c = d :=
  Char.eq_of_val_eq (UInt32.toNat.inj h)

lemma toNat_ofNat_valid {n : Nat} (h : n < 55296) : (Char.ofNat n).toNat = n := by
  have hv : n.isValidChar := Or.inl h
  simp [Char.ofNat, hv, Char.ofNatAux, Char.toNat, UInt32.toNat, BitVec.toNat_ofNatLt]

lemma charLower_toNat (c : Char) :
    (charLower c).toNat =
      if 65 ≤ c.toNat ∧ c.toNat ≤ 90 then c.toNat + 32 else c.toNat := by
  unfold charLower
  split
  · next h => exact toNat_ofNat_valid (by omega)
  · rfl

lemma charLower_eq_self {c : Char} (h : ¬(65 ≤ c.toNat ∧ c.toNat ≤ 90)) :
    charLower c = c := by
  unfold charLower
  exact if_neg h

lemma charLower_idem (c : Char) : charLower (charLower c) = charLower c := by
  by_cases h : 65 ≤ c.toNat ∧ c.toNat ≤ 90
  · have h1 : (charLower c).toNat = c.toNat + 32 := by
      rw [charLower_toNat, if_pos h]
    exact charLower_eq_self (by omega)
  · rw [charLower_eq_self h]
    exact charLower_eq_self h

lemma pyLower_idem (s : Str) : pyLower (pyLower s) = pyLower s := by
  induction s with
  | nil => rfl
  | cons c cs ih =>
    simp only [pyLower, List.map_cons] at ih ⊢
    rw [charLower_idem, ih]

/-- Case folding cannot produce a character outside the lowercase-letter
range, so it preserves "is not this special character" for specials. -/
lemma charLower_ne_special {c d : Char} (hd : d.toNat < 97 ∨ 122 < d.toNat)
    (h : c ≠ d) : charLower c ≠ d := by
  intro he
  have ht := charLower_toNat c
  rw [he] at ht
  by_cases hc : 65 ≤ c.toNat ∧ c.toNat ≤ 90
  · rw [if_pos hc] at ht
    omega
  · rw [if_neg hc] at ht
    exact h (charToNat_inj ht).symm

/-! ## Tag normalisation (C1) -/

lemma idxOf_append_left {x : Str} {l₁ l₂ : List Str} (h : x ∈ l₁) :
    idxOf x (l₁ ++ l₂) = idxOf x l₁ := by
  induction l₁ with
  | nil => cases h
  | cons y ys ih =>
    simp only [List.cons_append, idxOf, List.append_eq]
    by_cases hy : y = x
    · rw [if_pos hy, if_pos hy]
    · rw [if_neg hy, if_neg hy, ih]
      rcases List.mem_cons.mp h with rfl | hm
      · exact absurd rfl hy
      · exact hm

lemma idxOf_append_right {x : Str} {l₁ l₂ : List Str} (h : x ∉ l₁) :
    idxOf x (l₁ ++ l₂) = l₁.length + idxOf x l₂ := by
  induction l₁ with
  | nil => simp
  | cons y ys ih =>
    simp only [List.cons_append, idxOf, List.length_cons, List.append_eq]
    rw [if_neg (show ¬ y = x from
        fun hy => h (List.mem_cons.mpr (Or.inl hy.symm))),
      ih (fun hm => h (List.mem_cons_of_mem y hm))]
    omega

lemma idxOf_lt_length {x : Str} {l : List Str} (h : x ∈ l) :
    idxOf x l < l.length := by
  induction l with
  | nil => cases h
  | cons y ys ih =>
    simp only [idxOf, List.length_cons]
    by_cases hy : y = x
    · rw [if_pos hy]; omega
    · rw [if_neg hy]
      rcases List.mem_cons.mp h with rfl | hm
      · exact absurd rfl hy
      · have := ih hm; omega

lemma survivors_cons_skip {t : Str} {l : List Str} (h : pyStrip t = []) :
    survivors (t :: l) = survivors l := by
  simp [survivors, h]

lemma survivors_cons_keep {t : Str} {l : List Str} (h : pyStrip t ≠ []) :
    survivors (t :: l) = pyLower (pyStrip t) :: survivors l := by
  simp only [survivors, List.filter_cons]
  rw [if_pos]
  · simp
  · simpa [List.isEmpty_iff] using h

lemma normTags_ok_eq : ∀ (l acc out : List Str),
    normTags acc l = .ok out → out = foldDedup acc (survivors l) := by
  intro l
  induction l with
  | nil =>
    intro acc out h
    simp only [normTags] at h
    cases h
    rfl
  | cons t rest ih =>
    intro acc out h
    simp only [normTags] at h
    by_cases hs : pyStrip t = []
    · rw [if_pos hs] at h
      rw [survivors_cons_skip hs]
      exact ih acc out h
    · rw [if_neg hs] at h
      by_cases hlen : 30 < (pyLower (pyStrip t)).length
      · rw [if_pos hlen] at h
        cases h
      · rw [if_neg hlen] at h
        rw [survivors_cons_keep hs]
        by_cases hmem : pyLower (pyStrip t) ∈ acc
        · rw [if_pos hmem] at h
          have := ih acc out h
          simp only [foldDedup, List.foldl_cons, if_pos hmem]
          exact this
        · rw [if_neg hmem] at h
          have := ih (acc ++ [pyLower (pyStrip t)]) out h
          simp only [foldDedup, List.foldl_cons, if_neg hmem]
          exact this

lemma normTags_ok_exists : ∀ (l acc : List Str),
    (∃ out, normTags acc l = .ok out) ↔
      ∀ t ∈ l, pyStrip t ≠ [] → (pyLower (pyStrip t)).length ≤ 30 := by
  intro l
  induction l with
  | nil =>
    intro acc
    simp [normTags]
  | cons t rest ih =>
    intro acc
    simp only [normTags, List.mem_cons]
    by_cases hs : pyStrip t = []
    · rw [if_pos hs]
      rw [ih acc]
      constructor
      · intro h u hu
        rcases hu with rfl | hu
        · intro hbad; exact absurd hs hbad
        · exact h u hu
      · intro h u hu
        exact h u (Or.inr hu)
    · rw [if_neg hs]
      by_cases hlen : 30 < (pyLower (pyStrip t)).length
      · rw [if_pos hlen]
        constructor
        · rintro ⟨out, hout⟩
          cases hout
        · intro h
          exact absurd (h t (Or.inl rfl) hs) (by omega)
      · rw [if_neg hlen]
        have step : ∀ acc', (∃ out, normTags acc' rest = .ok out) ↔
            ∀ u ∈ rest, pyStrip u ≠ [] → (pyLower (pyStrip u)).length ≤ 30 := ih
        by_cases hmem : pyLower (pyStrip t) ∈ acc
        · rw [if_pos hmem, step acc]
          constructor
          · intro h u hu
            rcases hu with rfl | hu
            · intro _; omega
            · exact h u hu
          · intro h u hu
            exact h u (Or.inr hu)
        · rw [if_neg hmem, step (acc ++ [pyLower (pyStrip t)])]
          constructor
          · intro h u hu
            rcases hu with rfl | hu
            · intro _; omega
            · exact h u hu
          · intro h u hu
            exact h u (Or.inr hu)

lemma normTags_error_msg : ∀ (l acc : List Str) (e : String),
    normTags acc l = .error e → e = "tag must be 30 characters or less" := by
  intro l
  induction l with
  | nil =>
    intro acc e h
    simp [normTags] at h
  | cons t rest ih =>
    intro acc e h
    simp only [normTags] at h
    by_cases hs : pyStrip t = []
    · rw [if_pos hs] at h
      exact ih acc e h
    · rw [if_neg hs] at h
      by_cases hlen : 30 < (pyLower (pyStrip t)).length
      · rw [if_pos hlen] at h
        cases h
        rfl
      · rw [if_neg hlen] at h
        by_cases hmem : pyLower (pyStrip t) ∈ acc
        · rw [if_pos hmem] at h
          exact ih acc e h
        · rw [if_neg hmem] at h
          exact ih _ e h

lemma foldDedup_spec : ∀ (s pre acc : List Str), acc.Nodup →
    (∀ x, x ∈ acc ↔ x ∈ pre) →
    acc.Pairwise (fun a b => idxOf a pre < idxOf b pre) →
    (foldDedup acc s).Nodup ∧
      (∀ x, x ∈ foldDedup acc s ↔ x ∈ pre ∨ x ∈ s) ∧
      (foldDedup acc s).Pairwise
        (fun a b => idxOf a (pre ++ s) < idxOf b (pre ++ s)) := by
  intro s
  induction s with
  | nil =>
    intro pre acc hnd hmem hpw
    refine ⟨hnd, fun x => by simpa using hmem x, by simpa using hpw⟩
  | cons x s' ih =>
    intro pre acc hnd hmem hpw
    have hunf : foldDedup acc (x :: s') =
        foldDedup (if x ∈ acc then acc else acc ++ [x]) s' := rfl
    by_cases hx : x ∈ acc
    · rw [hunf, if_pos hx]
      have hxpre : x ∈ pre := (hmem x).mp hx
      have hmem' : ∀ z, z ∈ acc ↔ z ∈ pre ++ [x] := by
        intro z
        rw [hmem z]
        simp only [List.mem_append, List.mem_singleton]
        constructor
        · exact Or.inl
        · rintro (h | rfl)
          · exact h
          · exact hxpre
      have hpw' : acc.Pairwise
          (fun a b => idxOf a (pre ++ [x]) < idxOf b (pre ++ [x])) := by
        refine hpw.imp_of_mem ?_
        intro a b ha hb hab
        rw [idxOf_append_left ((hmem a).mp ha),
          idxOf_append_left ((hmem b).mp hb)]
        exact hab
      obtain ⟨h1, h2, h3⟩ := ih (pre ++ [x]) acc hnd hmem' hpw'
      refine ⟨h1, ?_, ?_⟩
      · intro z
        rw [h2 z]
        simp only [List.mem_append, List.mem_singleton, List.mem_cons]
        tauto
      · have : pre ++ [x] ++ s' = pre ++ x :: s' := by
          rw [List.append_assoc]
          rfl
        rwa [this] at h3
    · rw [hunf, if_neg hx]
      have hxpre : x ∉ pre := fun h => hx ((hmem x).mpr h)
      have hnd' : (acc ++ [x]).Nodup := by
        rw [List.nodup_append]
        refine ⟨hnd, List.nodup_singleton x, ?_⟩
        intro a ha hb
        rw [List.mem_singleton] at hb
        subst hb
        exact hx ha
      have hmem' : ∀ z, z ∈ acc ++ [x] ↔ z ∈ pre ++ [x] := by
        intro z
        simp only [List.mem_append, List.mem_singleton]
        rw [hmem z]
      have hpw' : (acc ++ [x]).Pairwise
          (fun a b => idxOf a (pre ++ [x]) < idxOf b (pre ++ [x])) := by
        rw [List.pairwise_append]
        refine ⟨?_, List.pairwise_singleton _ x, ?_⟩
        · refine hpw.imp_of_mem ?_
          intro a b ha hb hab
          rw [idxOf_append_left ((hmem a).mp ha),
            idxOf_append_left ((hmem b).mp hb)]
          exact hab
        · intro a ha b hb
          rw [List.mem_singleton] at hb
          subst hb
          have hapre : a ∈ pre := (hmem a).mp ha
          rw [idxOf_append_left hapre, idxOf_append_right hxpre]
          have h1 : idxOf a pre < pre.length := idxOf_lt_length hapre
          omega
      obtain ⟨h1, h2, h3⟩ := ih (pre ++ [x]) (acc ++ [x]) hnd' hmem' hpw'
      refine ⟨h1, ?_, ?_⟩
      · intro z
        rw [h2 z]
        simp only [List.mem_append, List.mem_singleton, List.mem_cons]
        tauto
      · have : pre ++ [x] ++ s' = pre ++ x :: s' := by
          rw [List.append_assoc]
          rfl
        rwa [this] at h3

/-- The `if self.tags:` guard is redundant: the loop maps `[]` to `[]`. -/
lemma tagsStage_eq (l : List Str) : tagsStage l =
    (match normTags [] l with
     | .error e => .error e
     | .ok out =>
       if 20 < out.length then .error "maximum 20 tags allowed" else .ok out) := by
  unfold tagsStage
  by_cases hl : l = []
  · subst hl
    rfl
  · rw [if_neg hl]

lemma mem_survivors {x : Str} {l : List Str} :
    x ∈ survivors l ↔ ∃ t ∈ l, pyStrip t ≠ [] ∧ x = pyLower (pyStrip t) := by
  unfold survivors
  rw [List.mem_map]
  constructor
  · rintro ⟨t, htf, rfl⟩
    rw [List.mem_filter] at htf
    refine ⟨t, htf.1, ?_, rfl⟩
    simpa [List.isEmpty_iff] using htf.2
  · rintro ⟨t, ht, hne, rfl⟩
    exact ⟨t, List.mem_filter.mpr ⟨ht, by simpa [List.isEmpty_iff] using hne⟩, rfl⟩

lemma tagsStage_of_normTags_ok (l out₀ : List Str)
    (hn : normTags [] l = .ok out₀) :
    tagsStage l =
      if 20 < out₀.length then .error "maximum 20 tags allowed"
      else .ok out₀ := by
  rw [tagsStage_eq, hn]

lemma tagsStage_of_normTags_error (l : List Str) (e : String)
    (hn : normTags [] l = .error e) : tagsStage l = .error e := by
  rw [tagsStage_eq, hn]

lemma tagsStage_ok_char (l out : List Str) (h : tagsStage l = .ok out) :
    out.Nodup ∧ (∀ x, x ∈ out ↔ x ∈ survivors l) ∧
      out.Pairwise (fun a b => idxOf a (survivors l) < idxOf b (survivors l)) ∧
      out.length ≤ 20 := by
  cases hn : normTags [] l with
  | error e =>
    rw [tagsStage_of_normTags_error l e hn] at h
    cases h
  | ok out₀ =>
    rw [tagsStage_of_normTags_ok l out₀ hn] at h
    by_cases h20 : 20 < out₀.length
    · rw [if_pos h20] at h
      cases h
    · rw [if_neg h20] at h
      injection h with h'
      subst h'
      have heq := normTags_ok_eq l [] out₀ hn
      obtain ⟨hnd, hmem, hpw⟩ := foldDedup_spec (survivors l) [] []
        List.nodup_nil (fun x => by simp) List.Pairwise.nil
      rw [heq]
      exact ⟨hnd, fun x => by rw [hmem x]; simp, by simpa using hpw,
        by rw [← heq]; omega⟩

lemma tagsStage_error_char (l : List Str) (e : String) (h : tagsStage l = .error e) :
    (e = "tag must be 30 characters or less" ∧
      ∃ x ∈ l, pyStrip x ≠ [] ∧ 30 < (pyLower (pyStrip x)).length) ∨
    (e = "maximum 20 tags allowed" ∧ 20 < (foldDedup [] (survivors l)).length) := by
  cases hn : normTags [] l with
  | error e2 =>
    have h2 := tagsStage_of_normTags_error l e2 hn
    rw [h] at h2
    injection h2 with he
    subst he
    left
    refine ⟨normTags_error_msg l [] e hn, ?_⟩
    by_contra hc
    push_neg at hc
    obtain ⟨out, hout⟩ := (normTags_ok_exists l []).mpr (fun t ht hne => hc t ht hne)
    rw [hn] at hout
    cases hout
  | ok out₀ =>
    have h2 := tagsStage_of_normTags_ok l out₀ hn
    rw [h] at h2
    by_cases h20 : 20 < out₀.length
    · rw [if_pos h20] at h2
      injection h2 with he
      subst he
      right
      exact ⟨rfl, by rw [← normTags_ok_eq l [] out₀ hn]; exact h20⟩
    · rw [if_neg h20] at h2
      cases h2

lemma make_ok_iff (t u : Todo) : Todo.make t = .ok u ↔
    pyStrip t.title ≠ [] ∧ (pyStrip t.title).length ≤ 200 ∧
    descBad t.description = false ∧ ¬(t.priority < 0 ∨ 5 < t.priority) ∧
    ∃ tags', tagsStage t.tags = .ok tags' ∧
      dueBad t.id t.created_at t.due_date = false ∧
      u = { t with title := pyStrip t.title, tags := tags' } := by
  constructor
  · intro h
    unfold Todo.make at h
    by_cases h1 : pyStrip t.title = []
    · rw [if_pos h1] at h; cases h
    rw [if_neg h1] at h
    by_cases h2 : 200 < (pyStrip t.title).length
    · rw [if_pos h2] at h; cases h
    rw [if_neg h2] at h
    by_cases h3 : descBad t.description = true
    · rw [if_pos h3] at h; cases h
    rw [if_neg h3] at h
    by_cases h4 : t.priority < 0 ∨ 5 < t.priority
    · rw [if_pos h4] at h; cases h
    rw [if_neg h4] at h
    cases htags : tagsStage t.tags with
    | error e => rw [htags] at h; cases h
    | ok tags' =>
      rw [htags] at h
      dsimp only at h
      by_cases h5 : dueBad t.id t.created_at t.due_date = true
      · rw [if_pos h5] at h; cases h
      rw [if_neg h5] at h
      cases h
      exact ⟨h1, by omega, by simpa using h3, h4, tags', rfl,
        by simpa using h5, rfl⟩
  · rintro ⟨h1, h2, h3, h4, tags', htags, h5, rfl⟩
    unfold Todo.make
    rw [if_neg h1, if_neg (by omega), if_neg (by simp [h3]), if_neg h4,
      htags]
    dsimp only
    rw [if_neg (by simp [h5])]

/-- C1: on every construction/validation, the tags list is normalised by
the trim/skip-empty/lower-case/length-check/dedup-append loop followed
by the more-than-20 check: a successful result is duplicate-free, all
lower-case, each entry at most 30 characters, at most 20 entries, has
exactly the surviving normalised inputs as members, and lists them in
first-occurrence order; the only failures are a tag whose normalised
form exceeds 30 characters and a deduplicated result exceeding 20
entries. -/
theorem c1_tag_normalization :
    (∀ t u, Todo.make t = .ok u → tagsStage t.tags = .ok u.tags) ∧
    (∀ l out, tagsStage l = .ok out →
      out.Nodup ∧
      (∀ x ∈ out, pyLower x = x) ∧
      (∀ x ∈ out, x.length ≤ 30) ∧
      out.length ≤ 20 ∧
      (∀ x, x ∈ out ↔ x ∈ survivors l) ∧
      out.Pairwise (fun a b => idxOf a (survivors l) < idxOf b (survivors l))) ∧
    (∀ l e, tagsStage l = .error e →
      (e = "tag must be 30 characters or less" ∧
        ∃ x ∈ l, pyStrip x ≠ [] ∧ 30 < (pyLower (pyStrip x)).length) ∨
      (e = "maximum 20 tags allowed" ∧
        20 < (foldDedup [] (survivors l)).length)) := by
  refine ⟨?_, ?_, tagsStage_error_char⟩
  · intro t u h
    obtain ⟨_, _, _, _, tags', htags, _, rfl⟩ := (make_ok_iff t u).mp h
    exact htags
  · intro l out h
    obtain ⟨hnd, hmem, hpw, hlen⟩ := tagsStage_ok_char l out h
    have hok : ∃ out', normTags [] l = .ok out' := by
      rw [tagsStage_eq] at h
      cases hn : normTags [] l with
      | error e => rw [hn] at h; cases h
      | ok out₀ => exact ⟨out₀, rfl⟩
    have hbound := (normTags_ok_exists l []).mp hok
    refine ⟨hnd, ?_, ?_, hlen, hmem, hpw⟩
    · intro x hx
      obtain ⟨s, _, _, rfl⟩ := mem_survivors.mp ((hmem x).mp hx)
      exact pyLower_idem (pyStrip s)
    · intro x hx
      obtain ⟨s, hs, hne, rfl⟩ := mem_survivors.mp ((hmem x).mp hx)
      exact hbound s hs hne

/-- Witness for C1 at a concrete input: `["  Work ", "work", "", "HOME"]`
normalises to `["work", "home"]`, which is duplicate-free, within the
length bounds, and in first-occurrence order. -/
theorem c1_witness :
    tagsStage ["  Work ".toList, "work".toList, "".toList, "HOME".toList] =
        .ok ["work".toList, "home".toList] ∧
      (["work".toList, "home".toList] : List Str).Nodup ∧
      (["work".toList, "home".toList] : List Str).length ≤ 20 ∧
      (["work".toList, "home".toList] : List Str).Pairwise
        (fun a b =>
          idxOf a (survivors ["  Work ".toList, "work".toList, "".toList,
            "HOME".toList]) <
          idxOf b (survivors ["  Work ".toList, "work".toList, "".toList,
            "HOME".toList])) :=
  ⟨by decide,
    (c1_tag_normalization.2.1 ["  Work ".toList, "work".toList, "".toList, "HOME".toList] ["work".toList, "home".toList] (by decide)).1,
    (c1_tag_normalization.2.1 ["  Work ".toList, "work".toList, "".toList, "HOME".toList] ["work".toList, "home".toList] (by decide)).2.2.2.1,
    (c1_tag_normalization.2.1 ["  Work ".toList, "work".toList, "".toList, "HOME".toList] ["work".toList, "home".toList] (by decide)).2.2.2.2.2⟩

/-! ## Well-formedness and the update frame (C5, C6, C7, C8, C9, C10) -/

lemma wf_parts {t : Todo} (h : t.wf) :
    pyStrip t.title = t.title ∧ tagsStage t.tags = .ok t.tags ∧
    pyStrip t.title ≠ [] ∧ (pyStrip t.title).length ≤ 200 ∧
    descBad t.description = false ∧ ¬(t.priority < 0 ∨ 5 < t.priority) ∧
    dueBad t.id t.created_at t.due_date = false := by
  obtain ⟨h1, h2, h3, h4, tags', htags, h5, heq⟩ := (make_ok_iff t t).mp h
  have htitle : pyStrip t.title = t.title := by
    have := congrArg Todo.title heq
    simpa using this.symm
  have htags2 : tags' = t.tags := by
    have := congrArg Todo.tags heq
    simpa using this.symm
  exact ⟨htitle, htags2 ▸ htags, h1, h2, h3, h4, h5⟩

/-- Validation does not read `is_done` or `updated_at`, so changing only
those fields of a well-formed todo revalidates to the same record. -/
lemma make_untouched {t : Todo} (h : t.wf) (d : Bool) (ua : Option Nat) :
    Todo.make { t with is_done := d, updated_at := ua } =
      .ok { t with is_done := d, updated_at := ua } := by
  obtain ⟨htitle, htags, h1, h2, h3, h4, h5⟩ := wf_parts h
  cases t with
  | mk id title description is_done priority due_date tags created_at updated_at =>
    dsimp only at htitle htags h1 h2 h3 h4 h5 ⊢
    rw [make_ok_iff]
    exact ⟨h1, h2, h3, h4, tags, htags, h5, by rw [htitle]⟩

/-- What a successful `Todo.update` produces, field by field. -/
lemma update_frame {t : Todo} {args : UpdateArgs} {now : Nat} {b : Todo}
    (h : Todo.update t args now = .ok b) :
    b.id = t.id ∧ b.created_at = t.created_at ∧
    b.is_done = args.is_done.getD t.is_done ∧
    b.priority = args.priority.getD t.priority ∧
    b.due_date = args.due_date.getD t.due_date ∧
    b.description = args.description.getD t.description ∧
    b.updated_at = args.updated_at.getD (some now) ∧
    b.title = pyStrip (args.title.getD t.title) ∧
    tagsStage (args.tags.getD t.tags) = .ok b.tags := by
  unfold Todo.update at h
  obtain ⟨h1, h2, h3, h4, tags', htags, h5, rfl⟩ := (make_ok_iff _ _).mp h
  exact ⟨rfl, rfl, rfl, rfl, rfl, rfl, rfl, rfl, htags⟩

/-- Fields whose keyword was not supplied keep their values across a
successful update of a well-formed todo. -/
lemma update_unsupplied {t : Todo} {args : UpdateArgs} {now : Nat} {b : Todo}
    (hwf : t.wf) (h : Todo.update t args now = .ok b) :
    (args.title = none → b.title = t.title) ∧
    (args.description = none → b.description = t.description) ∧
    (args.is_done = none → b.is_done = t.is_done) ∧
    (args.priority = none → b.priority = t.priority) ∧
    (args.due_date = none → b.due_date = t.due_date) ∧
    (args.tags = none → b.tags = t.tags) := by
  obtain ⟨hid, hcr, hdone, hprio, hdue, hdesc, hupd, htitle, htags⟩ :=
    update_frame h
  obtain ⟨hwt, hwtags, _⟩ := wf_parts hwf
  refine ⟨?_, ?_, ?_, ?_, ?_, ?_⟩
  · intro hn
    rw [htitle, hn]
    simpa using hwt
  · intro hn
    rw [hdesc, hn]
    rfl
  · intro hn
    rw [hdone, hn]
    rfl
  · intro hn
    rw [hprio, hn]
    rfl
  · intro hn
    rw [hdue, hn]
    rfl
  · intro hn
    rw [hn] at htags
    simp only [Option.getD_none] at htags
    rw [hwtags] at htags
    injection htags with h2
    exact h2.symm

example : Todo.create "  Test Title  ".toList none 0 none none 5 =
    .ok { id := none, title := "Test Title".toList, description := none,
          is_done := false, priority := 0, due_date := none, tags := [],
          created_at := some 5, updated_at := some 5 } := by decide

example : tagsStage ["Work".toList, "IMPORTANT".toList, "work".toList,
    "  urgent  ".toList, "".toList] =
    .ok ["work".toList, "important".toList, "urgent".toList] := by decide

/-- C6: a successful `update` of a well-formed todo with no explicit
`updated_at` keyword yields a new value sharing `id` and `created_at`,
keeping every unsupplied field, and carrying `updated_at = now` (hence
strictly later than the original's stamp whenever the clock moved
forward); the original value is untouched, `update` being a pure
function of it. -/
theorem c6_update_immutability :
    ∀ (a : Todo) (args : UpdateArgs) (now : Nat) (b : Todo),
    a.wf → args.updated_at = none → Todo.update a args now = .ok b →
    b.id = a.id ∧ b.created_at = a.created_at ∧
    (args.title = none → b.title = a.title) ∧
    (args.description = none → b.description = a.description) ∧
    (args.is_done = none → b.is_done = a.is_done) ∧
    (args.priority = none → b.priority = a.priority) ∧
    (args.due_date = none → b.due_date = a.due_date) ∧
    (args.tags = none → b.tags = a.tags) ∧
    b.updated_at = some now ∧
    (∀ u, a.updated_at = some u → u < now →
      ∃ v, b.updated_at = some v ∧ u < v) := by
  intro a args now b hwf hupd h
  obtain ⟨hid, hcr, _, _, _, _, hupd2, _, _⟩ := update_frame h
  obtain ⟨ht, hdesc, hisd, hpr, hdd, htg⟩ := update_unsupplied hwf h
  have hu : b.updated_at = some now := by
    rw [hupd2, hupd]
    rfl
  exact ⟨hid, hcr, ht, hdesc, hisd, hpr, hdd, htg, hu,
    fun u _ hlt => ⟨now, hu, hlt⟩⟩

/-- Witness for C6: updating `todoA` with only a new title at time 1. -/
theorem c6_witness :
    Todo.update todoA { noArgs with title := some "X".toList } 1 =
        .ok ⟨some 1, "X".toList, none, false, 0, none, [], some 0, some 1⟩ ∧
      (⟨some 1, "X".toList, none, false, 0, none, [], some 0, some 1⟩ :
          Todo).created_at = todoA.created_at ∧
      (⟨some 1, "X".toList, none, false, 0, none, [], some 0, some 1⟩ :
          Todo).updated_at = some 1 :=
  ⟨by decide,
    (c6_update_immutability todoA { noArgs with title := some "X".toList } 1
      ⟨some 1, "X".toList, none, false, 0, none, [], some 0, some 1⟩
      (by decide) rfl (by decide)).2.1,
    (c6_update_immutability todoA { noArgs with title := some "X".toList } 1
      ⟨some 1, "X".toList, none, false, 0, none, [], some 0, some 1⟩
      (by decide) rfl (by decide)).2.2.2.2.2.2.2.2.1⟩

/-- C9: `Todo.update` preserves `created_at` unconditionally; a
`created_at` keyword is silently dropped (supplying it changes nothing
at all), and in particular the repository-create restamp
`todo.update(created_at=now, updated_at=now)` cannot change
`created_at`. -/
theorem c9_created_at_immutable :
    ∀ (a : Todo) (args : UpdateArgs) (now : Nat) (v : Option Nat),
    (∀ b, Todo.update a args now = .ok b → b.created_at = a.created_at) ∧
    Todo.update a { args with created_at := some v } now =
      Todo.update a { args with created_at := none } now ∧
    (∀ b n2, repoCreateStamp a n2 = .ok b → b.created_at = a.created_at) := by
  intro a args now v
  refine ⟨?_, rfl, ?_⟩
  · intro b h
    exact (update_frame h).2.1
  · intro b n2 h
    exact (update_frame h).2.1

/-- Witness for C9: the repository-create restamp of `todoA` at time 7
keeps `created_at = 0`, and an explicit `created_at` keyword changes
nothing. -/
theorem c9_witness :
    repoCreateStamp todoA 7 =
        .ok ⟨some 1, "a".toList, none, false, 0, none, [], some 0, some 7⟩ ∧
      (⟨some 1, "a".toList, none, false, 0, none, [], some 0, some 7⟩ :
          Todo).created_at = todoA.created_at ∧
      Todo.update todoA { noArgs with created_at := some (some 9) } 3 =
        Todo.update todoA { noArgs with created_at := none } 3 :=
  ⟨by decide,
    (c9_created_at_immutable todoA
        { noArgs with created_at := some (some 7),
                      updated_at := some (some 7) } 7 (some 9)).2.2
      ⟨some 1, "a".toList, none, false, 0, none, [], some 0, some 7⟩ 7
      (by decide),
    (c9_created_at_immutable todoA noArgs 3 (some 9)).2.1⟩

lemma dueBad_none_id (c d : Option Nat) : dueBad none c d = false := by
  unfold dueBad
  cases d <;> cases c <;> rfl

lemma dueBad_true_iff (i : Option Int) (c d : Option Nat) :
    dueBad i c d = true ↔
      ∃ d' c' i', d = some d' ∧ c = some c' ∧ i = some i' ∧ d' < c' := by
  unfold dueBad
  cases d <;> cases c <;> cases i <;> simp

/-- Exactly when validation fails with the due-date message. -/
lemma make_error_due_iff (t : Todo) :
    Todo.make t = .error "due_date cannot be before created_at" ↔
      pyStrip t.title ≠ [] ∧ (pyStrip t.title).length ≤ 200 ∧
      descBad t.description = false ∧ ¬(t.priority < 0 ∨ 5 < t.priority) ∧
      (∃ tags', tagsStage t.tags = .ok tags') ∧
      dueBad t.id t.created_at t.due_date = true := by
  constructor
  · intro h
    unfold Todo.make at h
    by_cases h1 : pyStrip t.title = []
    · rw [if_pos h1] at h
      injection h with he
      exact absurd he (by decide)
    rw [if_neg h1] at h
    by_cases h2 : 200 < (pyStrip t.title).length
    · rw [if_pos h2] at h
      injection h with he
      exact absurd he (by decide)
    rw [if_neg h2] at h
    by_cases h3 : descBad t.description = true
    · rw [if_pos h3] at h
      injection h with he
      exact absurd he (by decide)
    rw [if_neg h3] at h
    by_cases h4 : t.priority < 0 ∨ 5 < t.priority
    · rw [if_pos h4] at h
      injection h with he
      exact absurd he (by decide)
    rw [if_neg h4] at h
    cases htags : tagsStage t.tags with
    | error e =>
      rw [htags] at h
      injection h with he
      subst he
      rcases tagsStage_error_char _ _ htags with ⟨he2, _⟩ | ⟨he2, _⟩ <;>
        exact absurd he2 (by decide)
    | ok tags' =>
      rw [htags] at h
      dsimp only at h
      by_cases h5 : dueBad t.id t.created_at t.due_date = true
      · exact ⟨h1, by omega, by simpa using h3, h4, ⟨tags', rfl⟩, h5⟩
      · rw [if_neg h5] at h
        cases h
  · rintro ⟨h1, h2, h3, h4, ⟨tags', htags⟩, h5⟩
    unfold Todo.make
    rw [if_neg h1, if_neg (by omega), if_neg (by simp [h3]), if_neg h4,
      htags]
    dsimp only
    rw [if_pos h5]

/-- C7: the due-date rule is asymmetric: validation raises the
due-date error exactly when `id`, `created_at` and `due_date` are all
present and `due_date < created_at` (given that the earlier checks
pass); an entity with `id = None` is never rejected for its due date,
on construction or on any update. -/
theorem c7_due_date_asymmetry :
    ∀ (t : Todo),
    (t.id = none →
      Todo.make t ≠ .error "due_date cannot be before created_at" ∧
      ∀ args now,
        Todo.update t args now ≠
          .error "due_date cannot be before created_at") ∧
    ((Todo.make { t with due_date := none }).isOk = true →
      (Todo.make t = .error "due_date cannot be before created_at" ↔
        ∃ d c i, t.due_date = some d ∧ t.created_at = some c ∧
          t.id = some i ∧ d < c)) := by
  intro t
  constructor
  · intro hid
    constructor
    · intro h
      obtain ⟨_, _, _, _, _, h5⟩ := (make_error_due_iff t).mp h
      rw [hid, dueBad_none_id] at h5
      cases h5
    · intro args now h
      obtain ⟨_, _, _, _, _, h5⟩ := (make_error_due_iff _).mp h
      dsimp only at h5
      rw [hid, dueBad_none_id] at h5
      cases h5
  · intro hok
    cases hmk : Todo.make { t with due_date := none } with
    | error e =>
      rw [hmk] at hok
      cases hok
    | ok u =>
      obtain ⟨h1, h2, h3, h4, tags', htags, _, _⟩ := (make_ok_iff _ _).mp hmk
      dsimp only at h1 h2 h3 h4 htags
      rw [make_error_due_iff]
      constructor
      · rintro ⟨_, _, _, _, _, h5⟩
        obtain ⟨d, c, i, hd, hc, hi, hlt⟩ := (dueBad_true_iff _ _ _).mp h5
        exact ⟨d, c, i, hd, hc, hi, hlt⟩
      · rintro ⟨d, c, i, hd, hc, hi, hlt⟩
        exact ⟨h1, h2, h3, h4, ⟨tags', htags⟩,
          (dueBad_true_iff _ _ _).mpr ⟨d, c, i, hd, hc, hi, hlt⟩⟩

/-- Witness for C7: a persisted todo with `created_at = 10` and
`due_date = 5` is rejected with the due-date message, while the same
field values with `id = None` validate fine. -/
theorem c7_witness :
    Todo.make ⟨some 1, "a".toList, none, false, 0, some 5, [], some 10,
        some 0⟩ =
      .error "due_date cannot be before created_at" ∧
    (Todo.make ⟨none, "a".toList, none, false, 0, some 5, [], some 10,
        some 0⟩).isOk = true :=
  ⟨((c7_due_date_asymmetry ⟨some 1, "a".toList, none, false, 0, some 5, [],
        some 10, some 0⟩).2 (by decide)).mpr
      ⟨5, 10, 1, rfl, rfl, rfl, by omega⟩,
    by decide⟩

lemma countStr_eq_zero {x : Str} {l : List Str} (h : x ∉ l) :
    countStr x l = 0 := by
  induction l with
  | nil => rfl
  | cons y ys ih =>
    simp only [countStr]
    rw [if_neg (show ¬ y = x from
        fun hy => h (List.mem_cons.mpr (Or.inl hy.symm))),
      ih (fun hm => h (List.mem_cons_of_mem y hm))]

lemma countStr_eq_one {x : Str} {l : List Str} (hnd : l.Nodup) (h : x ∈ l) :
    countStr x l = 1 := by
  induction l with
  | nil => cases h
  | cons y ys ih =>
    simp only [countStr]
    rcases List.mem_cons.mp h with rfl | hm
    · rw [if_pos rfl, countStr_eq_zero (List.Nodup.not_mem hnd)]
    · rw [if_neg (show ¬ y = x from
          fun hy => (List.Nodup.not_mem hnd) (hy ▸ hm)),
        ih (List.Nodup.of_cons hnd) hm]

/-- Updating a well-formed todo with its own tags list and an explicit
`updated_at` succeeds and only restamps `updated_at`. -/
lemma update_tags_same {t : Todo} (hwf : t.wf) (now : Nat) :
    t.update { noArgs with tags := some t.tags,
                           updated_at := some (some now) } now =
      .ok { t with updated_at := some now } := by
  have h := make_untouched hwf t.is_done (some now)
  exact h

lemma add_tag_noop {t : Todo} (hwf : t.wf) {tag : Str} (now : Nat)
    (h : pyLower (pyStrip tag) ∈ t.tags ∨ pyLower (pyStrip tag) = []) :
    t.add_tag tag now = .ok { t with updated_at := some now } := by
  simp only [Todo.add_tag]
  rw [if_neg (show ¬(pyLower (pyStrip tag) ≠ [] ∧
      pyLower (pyStrip tag) ∉ t.tags) by
    rcases h with h | h
    · exact fun hc => hc.2 h
    · exact fun hc => hc.1 h)]
  exact update_tags_same hwf now

lemma remove_tag_noop {t : Todo} (hwf : t.wf) {tag : Str} (now : Nat)
    (h : pyLower (pyStrip tag) ∉ t.tags) :
    t.remove_tag tag now = .ok { t with updated_at := some now } := by
  simp only [Todo.remove_tag]
  rw [if_neg h]
  exact update_tags_same hwf now

/-- C8: on a well-formed todo, adding a tag whose normalised form is
already present succeeds and leaves a tags list containing that tag
exactly once (the duplicate is not appended), and removing a tag whose
normalised form is absent succeeds with the tags list unchanged. -/
theorem c8_tag_ops_idempotent :
    ∀ (a : Todo) (tag : Str) (now : Nat), a.wf →
    (pyLower (pyStrip tag) ∈ a.tags →
      ∃ b, a.add_tag tag now = .ok b ∧ b.tags = a.tags ∧
        countStr (pyLower (pyStrip tag)) b.tags = 1) ∧
    (pyLower (pyStrip tag) ∉ a.tags →
      ∃ b, a.remove_tag tag now = .ok b ∧ b.tags = a.tags) := by
  intro a tag now hwf
  constructor
  · intro hmem
    refine ⟨{ a with updated_at := some now },
      add_tag_noop hwf now (Or.inl hmem), rfl, ?_⟩
    have hnd : a.tags.Nodup := (tagsStage_ok_char _ _ (wf_parts hwf).2.1).1
    exact countStr_eq_one hnd hmem
  · intro hmem
    exact ⟨{ a with updated_at := some now },
      remove_tag_noop hwf now hmem, rfl⟩

/-- Witness for C8: adding `"work"` to `todoW` (which already carries
it) keeps one copy; removing the absent `"nonexistent"` changes
nothing. -/
theorem c8_witness :
    todoW.add_tag "work".toList 3 = .ok { todoW with updated_at := some 3 } ∧
      countStr "work".toList ({ todoW with updated_at := some 3 }).tags = 1 ∧
      todoW.remove_tag "nonexistent".toList 3 =
        .ok { todoW with updated_at := some 3 } :=
  ⟨by decide,
    by
      obtain ⟨b, hb, _, hc⟩ :=
        ((c8_tag_ops_idempotent todoW "work".toList 3 (by decide)).1
          (by decide))
      have : b = { todoW with updated_at := some 3 } := by
        have := hb.symm.trans (by decide :
          todoW.add_tag "work".toList 3 =
            .ok { todoW with updated_at := some 3 })
        injection this
      rw [← this]
      exact hc,
    by decide⟩

/-- C10: on a well-formed todo, `add_tag` and `remove_tag` restamp
`updated_at` to the current time even when the tag operation is a
no-op (adding an already-present tag, adding a tag that normalises to
empty, removing an absent tag): the result is exactly the original
record with `updated_at := now`. -/
theorem c10_tag_noops_touch_updated_at :
    ∀ (a : Todo) (tag : Str) (now : Nat), a.wf →
    ((pyLower (pyStrip tag) ∈ a.tags ∨ pyLower (pyStrip tag) = []) →
      a.add_tag tag now = .ok { a with updated_at := some now }) ∧
    (pyLower (pyStrip tag) ∉ a.tags →
      a.remove_tag tag now = .ok { a with updated_at := some now }) := by
  intro a tag now hwf
  exact ⟨add_tag_noop hwf now, remove_tag_noop hwf now⟩

/-- Witness for C10: adding the blank tag `"  "` to `todoA` (a pure
no-op on the tags list) still advances `updated_at` from 0 to 5. -/
theorem c10_witness :
    todoA.add_tag "  ".toList 5 = .ok { todoA with updated_at := some 5 } ∧
      ({ todoA with updated_at := some 5 }).tags = todoA.tags ∧
      todoA.remove_tag "x".toList 5 =
        .ok { todoA with updated_at := some 5 } :=
  ⟨(c10_tag_noops_touch_updated_at todoA "  ".toList 5 (by decide)).1
      (Or.inr (by decide)),
    rfl,
    (c10_tag_noops_touch_updated_at todoA "x".toList 5 (by decide)).2
      (by decide)⟩

/-- C5: `update_todo` on an absent id returns `None` and leaves the
store untouched; on a present id it overlays exactly the supplied
fields onto the fetched entity (unsupplied fields keep their values),
propagates a validation error unchanged, and persists the result via
`repository.update`. -/
theorem c5_update_todo :
    ∀ (s : RepoSt) (i : Int) (title description : Option Str)
      (is_done : Option Bool) (priority : Option Int)
      (due_date : Option Nat) (tags : Option (List Str)) (now₁ now₂ : Nat),
    (repoGetById s i = none →
      updateTodo s i title description is_done priority due_date tags
        now₁ now₂ = .ok (none, s)) ∧
    (∀ ex, repoGetById s i = some ex →
      (∀ e, ex.update ⟨title, description.map some, is_done, priority,
          due_date.map some, tags, none, none⟩ now₁ = .error e →
        updateTodo s i title description is_done priority due_date tags
          now₁ now₂ = .error e) ∧
      (∀ u, ex.update ⟨title, description.map some, is_done, priority,
          due_date.map some, tags, none, none⟩ now₁ = .ok u →
        (updateTodo s i title description is_done priority due_date tags
            now₁ now₂ =
          match repoUpdate s u now₂ with
          | .error e => .error e
          | .ok (r, s') => .ok (some r, s')) ∧
        u.id = ex.id ∧ u.created_at = ex.created_at ∧
        (ex.wf →
          (title = none → u.title = ex.title) ∧
          (description = none → u.description = ex.description) ∧
          (is_done = none → u.is_done = ex.is_done) ∧
          (priority = none → u.priority = ex.priority) ∧
          (due_date = none → u.due_date = ex.due_date) ∧
          (tags = none → u.tags = ex.tags)))) := by
  intro s i title description is_done priority due_date tags now₁ now₂
  constructor
  · intro h
    unfold updateTodo
    rw [h]
  · intro ex hex
    constructor
    · intro e he
      unfold updateTodo
      rw [hex]
      dsimp only
      rw [he]
    · intro u hu
      refine ⟨?_, (update_frame hu).1, (update_frame hu).2.1, ?_⟩
      · unfold updateTodo
        rw [hex]
        dsimp only
        rw [hu]
      · intro hwf
        obtain ⟨h1, h2, h3, h4, h5, h6⟩ := update_unsupplied hwf hu
        refine ⟨h1, ?_, h3, h4, ?_, h6⟩
        · intro hd
          exact h2 (by rw [hd]; rfl)
        · intro hd
          exact h5 (by rw [hd]; rfl)

/-- Witness for C5: an absent id returns `None` with the store intact;
on `todoA` with only a new title, the created_at and tags carry over. -/
theorem c5_witness :
    updateTodo [] 9 none none none none none none 0 0 = .ok (none, []) ∧
      (⟨some 1, "X".toList, none, false, 0, none, [], some 0, some 1⟩ :
          Todo).created_at = todoA.created_at ∧
      (⟨some 1, "X".toList, none, false, 0, none, [], some 0, some 1⟩ :
          Todo).tags = todoA.tags := by
  have h2 := ((c5_update_todo [todoA] 1 (some "X".toList) none none none
      none none 1 2).2 todoA (by decide)).2
    ⟨some 1, "X".toList, none, false, 0, none, [], some 0, some 1⟩
    (by decide)
  exact ⟨(c5_update_todo [] 9 none none none none none none 0 0).1
      (by decide),
    h2.2.2.1,
    (h2.2.2.2 (by decide)).2.2.2.2.2 rfl⟩

lemma bulkTrace_map_fst {σ ε : Type} (mark : σ → Int → Except ε (Option Todo) × σ) :
    ∀ (ids : List Int) (s : σ), (bulkTrace mark s ids).map Prod.fst = ids := by
  intro ids
  induction ids with
  | nil => intro s; rfl
  | cons i rest ih =>
    intro s
    cases hm : mark s i with
    | mk r s' =>
      simp only [bulkTrace, hm, List.map_cons]
      rw [ih s']

lemma bulkLoop_eq {σ ε : Type} (mark : σ → Int → Except ε (Option Todo) × σ) :
    ∀ (ids : List Int) (s : σ) (upd : Nat) (failed : List Int),
    (bulkLoop mark s upd failed ids).1 =
      (upd + ((bulkTrace mark s ids).filter (fun p => !p.2)).length,
       failed ++ ((bulkTrace mark s ids).filter (fun p => p.2)).map Prod.fst) := by
  intro ids
  induction ids with
  | nil =>
    intro s upd failed
    simp [bulkLoop, bulkTrace]
  | cons i rest ih =>
    intro s upd failed
    cases hm : mark s i with
    | mk r s' =>
      simp only [bulkLoop, bulkTrace, hm]
      by_cases hf : bulkFailed r = true
      · rw [if_pos hf, ih s' upd (failed ++ [i]), hf]
        simp [List.append_assoc]
      · have hf2 : bulkFailed r = false := by
          cases h2 : bulkFailed r
          · rfl
          · exact absurd h2 hf
        rw [if_neg hf, ih s' (upd + 1) failed, hf2]
        simp
        omega

lemma filter_length_split (l : List (Int × Bool)) :
    (l.filter (fun p => !p.2)).length + (l.filter (fun p => p.2)).length =
      l.length := by
  induction l with
  | nil => rfl
  | cons x xs ih =>
    by_cases h : x.2 = true
    · simp [List.filter_cons, h]
      omega
    · have h2 : x.2 = false := by
        cases hx : x.2
        · rfl
        · exact absurd hx h
      simp [List.filter_cons, h2]
      omega

/-- C2: `bulk_mark_as_done` attempts the per-id operation on every id
independently: for any per-id operation, any starting state and any id
list, `updated` counts exactly the successful attempts along the run,
`failed_ids` lists exactly the ids whose attempt returned absence or
raised, in input order (a subsequence of the input), and every id is
accounted for — one failure never aborts the batch. -/
theorem c2_bulk_failure_isolation :
    ∀ (σ ε : Type) (mark : σ → Int → Except ε (Option Todo) × σ)
      (s : σ) (ids : List Int),
    (bulkMarkAsDone mark s ids).1.1 =
        ((bulkTrace mark s ids).filter (fun p => !p.2)).length ∧
    (bulkMarkAsDone mark s ids).1.2 =
        ((bulkTrace mark s ids).filter (fun p => p.2)).map Prod.fst ∧
    (bulkMarkAsDone mark s ids).1.1 +
        ((bulkMarkAsDone mark s ids).1.2).length = ids.length ∧
    ((bulkMarkAsDone mark s ids).1.2).Sublist ids := by
  intro σ ε mark s ids
  have h := bulkLoop_eq mark ids s 0 []
  unfold bulkMarkAsDone
  rw [h]
  have hlen : (bulkTrace mark s ids).length = ids.length := by
    conv_rhs => rw [← bulkTrace_map_fst mark ids s]
    rw [List.length_map]
  have hsub : (((bulkTrace mark s ids).filter (fun p => p.2)).map
      Prod.fst).Sublist ids := by
    have h2 := List.Sublist.map Prod.fst
      (List.filter_sublist (p := fun p => p.2) (bulkTrace mark s ids))
    rwa [bulkTrace_map_fst] at h2
  refine ⟨by simp, by simp, ?_, by simpa using hsub⟩
  simp only [Nat.zero_add, List.nil_append, List.length_map]
  rw [← hlen]
  exact filter_length_split _

/-- The specification's bulk example, on the concrete service operation
`mark_todo_as_done` over the in-memory store `[todoA]` (id 1 present,
id 999 absent): one update, `failed_ids = [999]`. -/
example :
    (bulkMarkAsDone (fun (st : RepoSt) i =>
        match markTodoAsDone st i 1 2 with
        | .error e => (.error e, st)
        | .ok (r, s') => (.ok r, s')) [todoA] [1, 999]).1 = (1, [999]) := by
  decide

lemma sortLoop_eq_map (l : List Str) :
    sortLoop l = l.map (fun f =>
      if (pyStrip f).head? = some '-' then ((pyStrip f).drop 1, SortDir.desc)
      else (pyStrip f, SortDir.asc)) := by
  induction l with
  | nil => rfl
  | cons f rest ih =>
    simp only [sortLoop, List.map_cons]
    rw [ih]

lemma applyOrderBy_sublist (keys : List (Str × SortDir)) :
    (applyOrderBy keys).Sublist keys := by
  induction keys with
  | nil => exact List.Sublist.refl []
  | cons k rest ih =>
    unfold applyOrderBy
    by_cases h : todoModelHasAttr k.1 = true
    · rw [if_pos h]
      exact ih.cons₂ k
    · rw [if_neg h]
      exact ih.cons k

lemma applyOrderBy_hasattr :
    ∀ (keys : List (Str × SortDir)) k, k ∈ applyOrderBy keys →
      todoModelHasAttr k.1 = true := by
  intro keys
  induction keys with
  | nil =>
    intro k h
    cases h
  | cons k' rest ih =>
    intro k h
    unfold applyOrderBy at h
    by_cases h2 : todoModelHasAttr k'.1 = true
    · rw [if_pos h2] at h
      rcases List.mem_cons.mp h with rfl | hm
      · exact h2
      · exact ih k hm
    · rw [if_neg h2] at h
      exact ih k h

lemma applyOrderBy_mem_of :
    ∀ (keys : List (Str × SortDir)) k, k ∈ keys →
      todoModelHasAttr k.1 = true → k ∈ applyOrderBy keys := by
  intro keys
  induction keys with
  | nil =>
    intro k h
    cases h
  | cons k' rest ih =>
    intro k hk hattr
    unfold applyOrderBy
    by_cases h2 : todoModelHasAttr k'.1 = true
    · rw [if_pos h2]
      rcases List.mem_cons.mp hk with rfl | hm
      · exact List.mem_cons_self _ _
      · exact List.mem_cons_of_mem _ (ih k hm hattr)
    · rw [if_neg h2]
      rcases List.mem_cons.mp hk with rfl | hm
      · exact absurd hattr h2
      · exact ih k hm hattr

/-- C4: sort parsing splits the raw string on commas in order (first
field first), trims each piece, reads a `-` prefix as descending and
anything else as ascending; an absent or empty sort string yields the
single default key `created_at` descending; and the executing layer
applies a parsed key only when its field name is an attribute of the
model, silently skipping (never erroring on) anything else while
preserving the listed order. -/
theorem c4_sort_parsing :
    getSortFields none = [("created_at".toList, SortDir.desc)] ∧
    getSortFields (some []) = [("created_at".toList, SortDir.desc)] ∧
    (∀ s : Str, s ≠ [] → getSortFields (some s) =
      (pySplit ',' s).map (fun f =>
        if (pyStrip f).head? = some '-' then
          ((pyStrip f).drop 1, SortDir.desc)
        else (pyStrip f, SortDir.asc))) ∧
    (∀ keys : List (Str × SortDir),
      (applyOrderBy keys).Sublist keys ∧
      ∀ k ∈ keys, (k ∈ applyOrderBy keys ↔ todoModelHasAttr k.1 = true)) ∧
    (∀ p : SearchParams, searchOrderKeys p = applyOrderBy (getSortFields p.sort)) := by
  refine ⟨rfl, rfl, ?_, ?_, fun p => rfl⟩
  · intro s hs
    unfold getSortFields
    dsimp only
    rw [if_neg hs]
    exact sortLoop_eq_map _
  · intro keys
    exact ⟨applyOrderBy_sublist keys,
      fun k hk => ⟨applyOrderBy_hasattr keys k, applyOrderBy_mem_of keys k hk⟩⟩

/-- Witness for C4: `"-priority, title"` parses to descending priority
then ascending title; the unknown field `"bogus"` is dropped by the
executing layer while `"priority"` survives. -/
theorem c4_witness :
    getSortFields (some "-priority, title".toList) =
      [("priority".toList, SortDir.desc), ("title".toList, SortDir.asc)] ∧
    (("bogus".toList, SortDir.asc) ∈
        applyOrderBy [("priority".toList, SortDir.desc),
          ("bogus".toList, SortDir.asc)] ↔
      todoModelHasAttr "bogus".toList = true) ∧
    applyOrderBy [("priority".toList, SortDir.desc),
        ("bogus".toList, SortDir.asc)] =
      [("priority".toList, SortDir.desc)] :=
  ⟨(c4_sort_parsing.2.2.1 "-priority, title".toList (by decide)).trans
      (by decide),
    (c4_sort_parsing.2.2.2.1 [("priority".toList, SortDir.desc),
        ("bogus".toList, SortDir.asc)]).2
      ("bogus".toList, SortDir.asc) (by decide),
    by decide⟩

/-! ## The tag filter of search (C3) -/

lemma pyLower_eq_self {l : Str} (h : ∀ c ∈ l, charLower c = c) :
    pyLower l = l := by
  induction l with
  | nil => rfl
  | cons c cs ih =>
    simp only [pyLower, List.map_cons] at ih ⊢
    rw [h c (List.mem_cons_self c cs),
      ih (fun d hd => h d (List.mem_cons_of_mem c hd))]

lemma pyLower_fixed_mem {l : Str} (h : pyLower l = l) :
    ∀ c ∈ l, charLower c = c := by
  induction l with
  | nil => intro c hc; cases hc
  | cons d ds ih =>
    simp only [pyLower, List.map_cons, List.cons.injEq] at h
    intro c hc
    rcases List.mem_cons.mp hc with rfl | hm
    · exact h.1
    · exact ih h.2 c hm

lemma jsonEscape_plain {t : Str} (h : ∀ c ∈ t, jsonPlainChar c) :
    jsonEscape t = t := by
  induction t with
  | nil => rfl
  | cons c cs ih =>
    have hc := h c (List.mem_cons_self c cs)
    simp only [jsonEscape, List.flatMap_cons]
    rw [show jsonEscapeChar c = [c] by
        unfold jsonEscapeChar
        rw [if_neg hc.1, if_neg hc.2.1, if_neg (Nat.not_lt.mpr hc.2.2)]]
    simp only [jsonEscape] at ih
    rw [ih (fun d hd => h d (List.mem_cons_of_mem c hd))]
    rfl

lemma likeMatch_percent (ps t : List Char) :
    likeMatch ('%' :: ps) t = true ↔ ∃ u, u <:+ t ∧ likeMatch ps u = true := by
  have h1 : likeMatch ('%' :: ps) t = t.tails.any (fun u => likeMatch ps u) :=
    rfl
  rw [h1, List.any_eq_true]
  constructor
  · rintro ⟨u, hu, hm⟩
    exact ⟨u, (List.mem_tails u t).mp hu, hm⟩
  · rintro ⟨u, hu, hm⟩
    exact ⟨u, (List.mem_tails u t).mpr hu, hm⟩

lemma likeMatch_trailing {m : List Char} (hm : ∀ c ∈ m, c ≠ '%' ∧ c ≠ '_') :
    ∀ t, likeMatch (m ++ ['%']) t = true ↔
      (m.map charLower) <+: (t.map charLower) := by
  induction m with
  | nil =>
    intro t
    rw [List.nil_append, likeMatch_percent]
    simp only [List.map_nil, List.nil_prefix, iff_true]
    exact ⟨[], List.nil_suffix, rfl⟩
  | cons p ps ih =>
    intro t
    have hp := hm p (List.mem_cons_self p ps)
    rw [List.cons_append]
    simp only [likeMatch, if_neg hp.1, if_neg hp.2]
    cases t with
    | nil => simp
    | cons c ts =>
      simp only [List.map_cons, Bool.and_eq_true, beq_iff_eq,
        List.cons_prefix_cons]
      rw [ih (fun d hd => hm d (List.mem_cons_of_mem p hd)) ts]

lemma likeMatch_infix_pattern {m : List Char}
    (hm : ∀ c ∈ m, c ≠ '%' ∧ c ≠ '_') (t : List Char) :
    likeMatch ('%' :: m ++ ['%']) t = true ↔
      (m.map charLower) <:+: (t.map charLower) := by
  have hsplit : '%' :: m ++ ['%'] = '%' :: (m ++ ['%']) := rfl
  rw [hsplit, likeMatch_percent]
  constructor
  · rintro ⟨u, hsuf, hu⟩
    exact List.infix_iff_prefix_suffix.mpr
      ⟨u.map charLower, (likeMatch_trailing hm u).mp hu,
        List.IsSuffix.map charLower hsuf⟩
  · intro h
    obtain ⟨w, hpre, hsuf⟩ := List.infix_iff_prefix_suffix.mp h
    have hw := List.suffix_iff_eq_drop.mp hsuf
    refine ⟨t.drop ((t.map charLower).length - w.length),
      List.drop_suffix _ t, (likeMatch_trailing hm _).mpr ?_⟩
    rw [List.map_drop]
    rw [hw] at hpre
    exact hpre

lemma renderBody_single (t : Str) :
    renderBody [t] = '"' :: jsonEscape t ++ ['"'] := rfl

lemma renderBody_cons₂ (t r : Str) (rest : List Str) :
    renderBody (t :: r :: rest) =
      '"' :: jsonEscape t ++ ['"', ','] ++ renderBody (r :: rest) := rfl

lemma renderBody_cons_head (r : Str) (rest : List Str) :
    ∃ z, renderBody (r :: rest) = '"' :: z := by
  cases rest with
  | nil => exact ⟨jsonEscape r ++ ['"'], rfl⟩
  | cons r' rest' =>
    exact ⟨jsonEscape r ++ ['"', ','] ++ renderBody (r' :: rest'), rfl⟩

lemma mem_renderBody : ∀ (l : List Str) (c : Char), c ∈ renderBody l →
    c = '"' ∨ c = ',' ∨ ∃ tg ∈ l, c ∈ jsonEscape tg := by
  intro l
  induction l with
  | nil =>
    intro c hc
    cases hc
  | cons t rest ih =>
    intro c hc
    cases rest with
    | nil =>
      rw [renderBody_single] at hc
      rcases List.mem_cons.mp hc with rfl | hc2
      · exact Or.inl rfl
      rcases List.mem_append.mp hc2 with h | h
      · exact Or.inr (Or.inr ⟨t, List.mem_cons_self t [], h⟩)
      · exact Or.inl (by simpa using h)
    | cons r rest' =>
      rw [renderBody_cons₂] at hc
      rcases List.mem_cons.mp hc with rfl | hc2
      · exact Or.inl rfl
      rcases List.mem_append.mp hc2 with h | h
      · rcases List.mem_append.mp h with h2 | h2
        · exact Or.inr (Or.inr ⟨t, List.mem_cons_self t _, h2⟩)
        · rcases List.mem_cons.mp h2 with rfl | h3
          · exact Or.inl rfl
          · exact Or.inr (Or.inl (by simpa using h3))
      · rcases ih c h with h2 | h2 | ⟨tg, htg, h3⟩
        · exact Or.inl h2
        · exact Or.inr (Or.inl h2)
        · exact Or.inr (Or.inr ⟨tg, List.mem_cons_of_mem t htg, h3⟩)

/-- An occurrence of a quote-prefixed pattern cannot start inside a
quote-free prefix of the text. -/
lemma quote_skip {w t u : List Char} (ht : '"' ∉ t) :
    ('"' :: w) <:+: (t ++ u) ↔ ('"' :: w) <:+: u := by
  induction t with
  | nil => simp
  | cons c t' ih =>
    have hc : c ≠ '"' := fun h => ht (h ▸ List.mem_cons_self c t')
    have ht' : '"' ∉ t' := fun h => ht (List.mem_cons_of_mem c h)
    rw [List.cons_append, List.infix_cons_iff]
    constructor
    · rintro (hp | hi)
      · obtain ⟨he, _⟩ := List.cons_prefix_cons.mp hp
        exact absurd he.symm hc
      · exact (ih ht').mp hi
    · intro h
      exact Or.inr ((ih ht').mpr h)

/-- A quote-terminated pattern laid against a quote-free block followed
by a quote matches exactly when the block is the pattern's body. -/
lemma quote_pr {y r u : List Char} (hy : '"' ∉ y) (hr : '"' ∉ r) :
    (y ++ ['"'] <+: r ++ '"' :: u) ↔ y = r := by
  induction y generalizing r with
  | nil =>
    cases r with
    | nil => simp
    | cons c r' =>
      have hc : c ≠ '"' := fun h => hr (h ▸ List.mem_cons_self c r')
      simp only [List.nil_append, List.cons_append, List.cons_prefix_cons]
      constructor
      · rintro ⟨he, _⟩
        exact absurd he hc.symm
      · intro h
        cases h
  | cons a y' ihy =>
    have ha : a ≠ '"' := fun h => hy (h ▸ List.mem_cons_self a y')
    have hy' : '"' ∉ y' := fun h => hy (List.mem_cons_of_mem a h)
    cases r with
    | nil =>
      simp only [List.cons_append, List.nil_append, List.cons_prefix_cons]
      constructor
      · rintro ⟨he, _⟩
        exact absurd he ha
      · intro h
        cases h
    | cons b r' =>
      have hr' : '"' ∉ r' := fun h => hr (List.mem_cons_of_mem b h)
      simp only [List.cons_append, List.cons_prefix_cons, List.cons.injEq]
      rw [ihy hy' hr']

/-- Peeling one quoted block off the text. -/
lemma quote_block {y t u : List Char} (hy : '"' ∉ y) (ht : '"' ∉ t) :
    ('"' :: y ++ ['"']) <:+: ('"' :: t ++ '"' :: u) ↔
      y = t ∨ ('"' :: y ++ ['"']) <:+: ('"' :: u) := by
  constructor
  · intro h
    rcases List.infix_cons_iff.mp h with hp | hi
    · left
      obtain ⟨_, h2⟩ := List.cons_prefix_cons.mp hp
      exact (quote_pr hy ht).mp h2
    · right
      exact (quote_skip ht).mp hi
  · rintro (rfl | hi)
    · apply List.infix_cons_iff.mpr
      left
      exact List.cons_prefix_cons.mpr ⟨rfl, ⟨u, by simp⟩⟩
    · apply List.infix_cons_iff.mpr
      right
      exact (quote_skip ht).mpr hi

/-- Inside the rendered body, a fully quoted plain string occurs as a
substring exactly when it is one of the (plain, non-empty) elements;
a pattern body equal to a lone comma is excluded (it would match the
separator between two elements). -/
lemma quote_in_body {y : List Char} (hy : '"' ∉ y) (hyc : y ≠ [',']) :
    ∀ (l : List Str), (∀ tg ∈ l, '"' ∉ tg ∧ tg ≠ [] ∧ jsonEscape tg = tg) →
      (('"' :: y ++ ['"']) <:+: (renderBody l ++ [']']) ↔ y ∈ l) := by
  intro l
  induction l with
  | nil =>
    intro _
    refine iff_of_false (fun h => ?_) (List.not_mem_nil y)
    have hlen := List.IsInfix.length_le h
    rw [show renderBody ([] : List Str) = [] from rfl] at hlen
    simp at hlen
  | cons t rest ih =>
    intro hl
    obtain ⟨htq, htne, hte⟩ := hl t (List.mem_cons_self t rest)
    cases rest with
    | nil =>
      rw [renderBody_single, hte]
      have hshape : ('"' :: t ++ ['"']) ++ [']'] = '"' :: t ++ '"' :: [']'] := by
        simp
      rw [hshape, quote_block hy htq]
      simp only [List.mem_singleton]
      constructor
      · rintro (rfl | hbad)
        · rfl
        · exfalso
          have hlen := List.IsInfix.length_le hbad
          simp only [List.length_cons, List.length_append,
            List.length_singleton] at hlen
          have hy0 : y = [] := by
            cases y with
            | nil => rfl
            | cons a y' => simp at hlen
          subst hy0
          have := List.IsInfix.eq_of_length hbad (by simp)
          simp at this
      · rintro rfl
        exact Or.inl rfl
    | cons r rest' =>
      rw [renderBody_cons₂, hte]
      obtain ⟨z, hz⟩ := renderBody_cons_head r rest'
      have hshape : ('"' :: t ++ ['"', ','] ++ renderBody (r :: rest')) ++ [']'] =
          '"' :: t ++ '"' :: (',' :: (renderBody (r :: rest') ++ [']'])) := by
        simp
      rw [hshape, quote_block hy htq]
      have hrest := ih (fun tg htg => hl tg (List.mem_cons_of_mem t htg))
      constructor
      · rintro (rfl | hbad)
        · exact List.mem_cons_self _ _
        · -- hbad : pattern <:+: '"' :: ',' :: (B ++ [']'])
          rcases List.infix_cons_iff.mp hbad with hp | hi
          · exfalso
            obtain ⟨_, h2⟩ := List.cons_prefix_cons.mp hp
            -- h2 : y ++ ['"'] <+: ',' :: (B ++ [']'])
            cases y with
            | nil =>
              obtain ⟨he, _⟩ := List.cons_prefix_cons.mp h2
              exact absurd he (by decide)
            | cons a y' =>
              obtain ⟨ha, h3⟩ := List.cons_prefix_cons.mp h2
              subst ha
              rw [hz] at h3
              -- h3 : y' ++ ['"'] <+: '"' :: z ++ [']']  (roughly)
              cases y' with
              | nil => exact hyc rfl
              | cons b y'' =>
                have h4 := List.cons_prefix_cons.mp
                  (by simpa using h3)
                exact hy (h4.1 ▸
                  List.mem_cons_of_mem ',' (List.mem_cons_self b y''))
          · rcases List.infix_cons_iff.mp hi with hp2 | hi2
            · exfalso
              obtain ⟨he, _⟩ := List.cons_prefix_cons.mp hp2
              exact absurd he (by decide)
            · exact List.mem_cons_of_mem t ((hrest).mp hi2)
      · intro hmem
        rcases List.mem_cons.mp hmem with rfl | hm
        · exact Or.inl rfl
        · right
          apply List.infix_cons_iff.mpr
          right
          apply List.infix_cons_iff.mpr
          right
          exact hrest.mpr hm

/-- The per-tag LIKE condition of the search, on plain tags: it holds
exactly when the lower-cased requested tag is a stored tag. -/
lemma tagLike_core {y : Str} {l : List Str}
    (hy : ∀ c ∈ y, likePlainChar c) (hyc : y ≠ [','])
    (hl : ∀ tg ∈ l, (∀ c ∈ tg, jsonPlainChar c) ∧ tg ≠ [] ∧ pyLower tg = tg) :
    likeMatch (tagLikePattern y) (renderTags l) = true ↔ pyLower y ∈ l := by
  have hpat : tagLikePattern y = '%' :: ('"' :: pyLower y ++ ['"']) ++ ['%'] := by
    unfold tagLikePattern
    simp
  have hm : ∀ c ∈ '"' :: pyLower y ++ ['"'], c ≠ '%' ∧ c ≠ '_' := by
    intro c hc
    rcases List.mem_cons.mp hc with rfl | hc2
    · exact ⟨by decide, by decide⟩
    rcases List.mem_append.mp hc2 with h | h
    · obtain ⟨c₀, hc₀, rfl⟩ := List.mem_map.mp h
      exact ⟨charLower_ne_special (Or.inl (by decide)) ((hy c₀ hc₀).2.1),
        charLower_ne_special (Or.inl (by decide)) ((hy c₀ hc₀).2.2)⟩
    · have : c = '"' := by simpa using h
      subst this
      exact ⟨by decide, by decide⟩
  rw [hpat, likeMatch_infix_pattern hm]
  have hmfix : List.map charLower ('"' :: pyLower y ++ ['"']) =
      '"' :: pyLower y ++ ['"'] := by
    simp only [List.map_cons, List.map_append, List.map_nil]
    rw [show charLower '"' = '"' by decide,
      show List.map charLower (pyLower y) = pyLower y from pyLower_idem y]
  have htfix : List.map charLower (renderTags l) = renderTags l := by
    apply pyLower_eq_self
    intro c hc
    unfold renderTags at hc
    rcases List.mem_cons.mp hc with rfl | hc2
    · decide
    rcases List.mem_append.mp hc2 with h | h
    · rcases mem_renderBody l c h with h2 | h2 | ⟨tg, htg, h3⟩
      · rw [h2]; decide
      · rw [h2]; decide
      · rw [jsonEscape_plain (hl tg htg).1] at h3
        exact pyLower_fixed_mem (hl tg htg).2.2 c h3
    · have : c = ']' := by simpa using h
      rw [this]; decide
  rw [hmfix, htfix]
  have hyq : '"' ∉ pyLower y := by
    intro h
    obtain ⟨c₀, hc₀, he⟩ := List.mem_map.mp h
    exact charLower_ne_special (Or.inl (by decide)) ((hy c₀ hc₀).1.1) he
  have hyc2 : pyLower y ≠ [','] := by
    intro h
    cases y with
    | nil => cases h
    | cons a ys =>
      cases ys with
      | nil =>
        simp only [pyLower, List.map_cons, List.map_nil,
          List.cons.injEq, and_true] at h
        have ha : a = ',' := by
          by_contra hne
          exact charLower_ne_special (Or.inl (by decide)) hne h
        exact hyc (by rw [ha])
      | cons b ys' => simp [pyLower] at h
  have hlq : ∀ tg ∈ l, '"' ∉ tg ∧ tg ≠ [] ∧ jsonEscape tg = tg := by
    intro tg htg
    exact ⟨fun hx => ((hl tg htg).1 '"' hx).1 rfl, (hl tg htg).2.1,
      jsonEscape_plain (hl tg htg).1⟩
  unfold renderTags
  constructor
  · intro h
    rcases List.infix_cons_iff.mp h with hp | hi
    · exfalso
      obtain ⟨he, _⟩ := List.cons_prefix_cons.mp hp
      exact absurd he (by decide)
    · exact (quote_in_body hyq hyc2 l hlq).mp hi
  · intro h
    apply List.infix_cons_iff.mpr
    right
    exact (quote_in_body hyq hyc2 l hlq).mpr h

/-- C3 counterexample to the claim as stated: requesting the tag `"%"`
matches a row whose only tag is `"a"` (the `%` acts as a LIKE wildcard
inside the interpolated pattern), although the row does not contain
the requested tag — inclusion is not equivalent to containing every
requested tag. -/
theorem c3_counterexample :
    rowMatches ⟨1, 20, none, none, none, [['%']], none, none⟩
        ⟨some 1, "a".toList, none, false, 0, none, [['a']], some 0, some 0⟩ =
      true ∧
    pyLower ['%'] ∉ ([['a']] : List Str) := by
  constructor
  · decide
  · decide

/-- C3 (amended): for requested tags made of LIKE-inert, JSON-plain
characters and not equal to the bare comma, and stored tags made of
JSON-plain characters, non-empty and already lower-cased (as entity
normalisation guarantees), a row passes the search filter exactly when
it passes the same filter without the tag criterion and contains every
requested tag, compared case-insensitively through lower-casing — a
logical AND across the requested tags. -/
theorem c3_tag_filter_amended :
    ∀ (p : SearchParams) (t : Todo),
    p.tags ≠ [] →
    (∀ tag ∈ p.tags, (∀ c ∈ tag, likePlainChar c) ∧ tag ≠ [',']) →
    (∀ tg ∈ t.tags, (∀ c ∈ tg, jsonPlainChar c) ∧ tg ≠ [] ∧ pyLower tg = tg) →
    (rowMatches p t = true ↔
      (rowMatches { p with tags := [] } t = true ∧
        ∀ tag ∈ p.tags, pyLower tag ∈ t.tags)) := by
  intro p t hne hreq hstored
  have hper : ∀ tag ∈ p.tags,
      (likeMatch (tagLikePattern tag) (renderTags t.tags) = true ↔
        pyLower tag ∈ t.tags) :=
    fun tag htag => tagLike_core (hreq tag htag).1 (hreq tag htag).2 hstored
  have hC : condTags p t = true ↔ ∀ tag ∈ p.tags, pyLower tag ∈ t.tags := by
    unfold condTags
    rw [Bool.or_eq_true, List.all_eq_true]
    constructor
    · rintro (h | h)
      · exact absurd (List.isEmpty_iff.mp h) hne
      · intro tag htag
        exact (hper tag htag).mp (h tag htag)
    · intro h
      right
      intro tag htag
      exact (hper tag htag).mpr (h tag htag)
  have hD : condIsDone { p with tags := ([] : List Str) } t = condIsDone p t :=
    rfl
  have hQ : condQ { p with tags := ([] : List Str) } t = condQ p t := rfl
  have hT : condTags { p with tags := ([] : List Str) } t = true := rfl
  have hB : condBefore { p with tags := ([] : List Str) } t = condBefore p t :=
    rfl
  have hA : condAfter { p with tags := ([] : List Str) } t = condAfter p t :=
    rfl
  unfold rowMatches
  rw [hD, hQ, hT, hB, hA]
  simp only [Bool.and_eq_true, Bool.true_and, and_true]
  constructor
  · rintro ⟨⟨⟨⟨h1, h2⟩, h3⟩, h4⟩, h5⟩
    exact ⟨⟨⟨⟨h1, h2⟩, h4⟩, h5⟩, hC.mp h3⟩
  · rintro ⟨⟨⟨⟨h1, h2⟩, h4⟩, h5⟩, h3⟩
    exact ⟨⟨⟨⟨h1, h2⟩, hC.mpr h3⟩, h4⟩, h5⟩

/-- Witness for C3 (amended): requesting `["WORK"]` matches the row
tagged `["work", "home"]` and indeed `pyLower "WORK" = "work"` is
stored; the no-tag filter also passes. -/
theorem c3_witness :
    rowMatches ⟨1, 20, none, none, none, ["WORK".toList], none, none⟩
        ⟨some 1, "a".toList, none, false, 0, none,
          ["work".toList, "home".toList], some 0, some 0⟩ = true ∧
      pyLower "WORK".toList ∈ (["work".toList, "home".toList] : List Str) :=
  ⟨(c3_tag_filter_amended
      ⟨1, 20, none, none, none, ["WORK".toList], none, none⟩
      ⟨some 1, "a".toList, none, false, 0, none,
        ["work".toList, "home".toList], some 0, some 0⟩
      (by decide) (by decide) (by decide)).mpr
    ⟨by decide, by decide⟩,
   by decide⟩
